import Mathlib

/-!
Verification development for the CORL `l2i/policy.py` policy estimator.

The Python source is shallowly embedded as follows.

* Tensors are total functions out of `ℕ` (one argument per axis); every
  operation carries the relevant dimensions explicitly and only ever reads
  in-range indices, mirroring the shapes in the source.
* Floating-point arithmetic is modelled exactly over a linear ordered field
  (instantiated at `ℝ` for the network, whose batch-normalization and softmax
  use `Real.sqrt` and `Real.exp`, and at `ℚ` for the index-gather and loss
  arithmetic of `PolicyEstimator.update`, which is rational).
* The int-to-float32-to-int conversion performed by `torch_it` on the action
  indices is modelled by `f32roundNat`, a genuine round-to-nearest-even onto
  24 significant bits.
* Erroring tensor operations are modelled with `Option`: `gatherIdx` returns
  `none` exactly where PyTorch raises an index-out-of-range error (negative
  indices wrap, as in PyTorch), and `bnTrainChecked` returns `none` exactly
  where `BatchNorm1d` in training mode raises on a single-element batch.
-/

open Finset

namespace CORL

/-- Row-major list of the rows `i, i+1, ..., i+B-1` of a `[*, A]` matrix,
each row listed as its `A` entries.  `flattenRM` below starts at row `0`;
together they model `torch.reshape(log_probs, (-1,))`. -/
def rowsFrom (A : ℕ) (m : ℕ → ℕ → ℚ) : ℕ → ℕ → List ℚ
  | _, 0 => []
  | i, B + 1 => (List.range A).map (m i) ++ rowsFrom A m (i + 1) B

/-- Row-major flattening of a `[B, A]` matrix to a 1-D buffer of length
`B * A`, modelling `torch.reshape(log_probs, (-1,))` in
`PolicyEstimator.update`. -/
def flattenRM (B A : ℕ) (m : ℕ → ℕ → ℚ) : List ℚ :=
  rowsFrom A m 0 B

/-- PyTorch 1-D integer indexing semantics for `buf[idx]`: a nonnegative
index reads directly, a negative index in `[-len, 0)` wraps from the end,
anything else raises (modelled as `none`). -/
def gatherIdx (l : List ℚ) (idx : ℤ) : Option ℚ :=
  if 0 ≤ idx then l[idx.toNat]?
  else if -(l.length : ℤ) ≤ idx then l[(idx + l.length).toNat]?
  else none

/-- The flat gather indices of `PolicyEstimator.update`:
`torch.arange(0, B) * A + actions`. -/
def updateIndices (A : ℕ) (actions : ℕ → ℤ) (i : ℕ) : ℤ :=
  (i : ℤ) * A + actions i

/-- The per-row selected log-probability of `PolicyEstimator.update`:
`torch.reshape(log_probs, (-1,))[indices.long()]` at batch row `i`. -/
def updateActProb (B A : ℕ) (logp : ℕ → ℕ → ℚ) (actions : ℕ → ℤ) (i : ℕ) :
    Option ℚ :=
  gatherIdx (flattenRM B A logp) (updateIndices A actions i)

/-- The loss of `PolicyEstimator.update`:
`-torch.sum(act_prob * advantages)`, an unnormalized sum over the batch. -/
def updateLossVal (B A : ℕ) (logp : ℕ → ℕ → ℚ) (actions : ℕ → ℤ)
    (adv : ℕ → ℚ) : ℚ :=
  -∑ i ∈ range B, ((updateActProb B A logp actions i).getD 0) * adv i

theorem rowsFrom_length (A : ℕ) (m : ℕ → ℕ → ℚ) :
    ∀ (B s : ℕ), (rowsFrom A m s B).length = B * A := by
  intro B
  induction B with
  | zero => intro s; simp [rowsFrom]
  | succ B ih =>
    intro s
    simp [rowsFrom, ih (s + 1), Nat.succ_mul, Nat.add_comm]

theorem flattenRM_length (B A : ℕ) (m : ℕ → ℕ → ℚ) :
    (flattenRM B A m).length = B * A :=
  rowsFrom_length A m B 0

theorem rowsFrom_get (A : ℕ) (m : ℕ → ℕ → ℚ) :
    ∀ (B s i a : ℕ), i < B → a < A →
      (rowsFrom A m s B)[i * A + a]? = some (m (s + i) a) := by
  intro B
  induction B with
  | zero => intro s i a hi _; exact absurd hi (Nat.not_lt_zero i)
  | succ B ih =>
    intro s i a hi ha
    rw [rowsFrom, List.getElem?_append]
    cases i with
    | zero =>
      have hc : 0 * A + a < ((List.range A).map (m s)).length := by
        simpa using ha
      rw [if_pos hc]
      simp [ha]
    | succ i =>
      have hc : ¬ ((i + 1) * A + a < ((List.range A).map (m s)).length) := by
        have hmul : (i + 1) * A = i * A + A := by ring
        simp only [List.length_map, List.length_range]
        omega
      rw [if_neg hc]
      have hsub : (i + 1) * A + a - ((List.range A).map (m s)).length
          = i * A + a := by
        have hmul : (i + 1) * A = i * A + A := by ring
        simp only [List.length_map, List.length_range]
        omega
      rw [hsub, ih (s + 1) i a (Nat.lt_of_succ_lt_succ hi) ha]
      have hrow : s + 1 + i = s + (i + 1) := by omega
      rw [hrow]

theorem flattenRM_get (B A : ℕ) (m : ℕ → ℕ → ℚ) (i a : ℕ)
    (hi : i < B) (ha : a < A) :
    (flattenRM B A m)[i * A + a]? = some (m i a) := by
  have h := rowsFrom_get A m B 0 i a hi ha
  simpa [flattenRM] using h

/-- Claim C3: for every update call with batch size B, A = n_act - 1 columns,
and every in-range action, the flattened-index gather at flat index
`i*A + actions[i]` selects exactly `log_probs[i, actions[i]]` for every row
`i`, and the returned loss is `-sum_i(log_probs[i, actions[i]] * advantages[i])`,
an unnormalized sum over the batch. -/
theorem C3_gather_and_loss (B A : ℕ) (logp : ℕ → ℕ → ℚ) (actions : ℕ → ℤ)
    (adv : ℕ → ℚ) (hact : ∀ i, i < B → 0 ≤ actions i ∧ actions i < A) :
    (∀ i, i < B → updateActProb B A logp actions i
        = some (logp i (actions i).toNat)) ∧
    updateLossVal B A logp actions adv
        = -∑ i ∈ range B, logp i (actions i).toNat * adv i := by
  have main : ∀ i, i < B → updateActProb B A logp actions i
      = some (logp i (actions i).toNat) := by
    intro i hi
    obtain ⟨h0, hA⟩ := hact i hi
    have hcast : ((actions i).toNat : ℤ) = actions i := Int.toNat_of_nonneg h0
    have hnA : (actions i).toNat < A := by omega
    have hidx : updateIndices A actions i
        = ((i * A + (actions i).toNat : ℕ) : ℤ) := by
      have hto : actions i = ((actions i).toNat : ℤ) := by omega
      conv_lhs => rw [updateIndices, hto]
      push_cast; ring
    have h0idx : (0 : ℤ) ≤ updateIndices A actions i := by
      rw [hidx]; exact_mod_cast Nat.zero_le _
    rw [updateActProb, gatherIdx, if_pos h0idx, hidx]
    rw [Int.toNat_natCast]
    exact flattenRM_get B A logp i (actions i).toNat hi hnA
  refine ⟨main, ?_⟩
  unfold updateLossVal
  congr 1
  refine Finset.sum_congr rfl ?_
  intro i hi
  rw [main i (mem_range.mp hi)]
  rfl

/-- Concrete log-probability matrix used to instantiate the update model. -/
def exLogp : ℕ → ℕ → ℚ := fun i j => ((i * 10 + j : ℕ) : ℚ)

/-- Concrete in-range actions for the C3 witness: row 0 takes action 1,
row 1 takes action 2 (with A = 3 columns). -/
def exActions3 : ℕ → ℤ := fun i => if i = 0 then 1 else 2

/-- Concrete advantages for the C3 witness. -/
def exAdv3 : ℕ → ℚ := fun i => ((i + 1 : ℕ) : ℚ)

theorem C3_gather_and_loss_witness :
    updateActProb 2 3 exLogp exActions3 0 = some (exLogp 0 1) ∧
    updateActProb 2 3 exLogp exActions3 1 = some (exLogp 1 2) ∧
    updateLossVal 2 3 exLogp exActions3 exAdv3 = -25 := by
  have h := C3_gather_and_loss 2 3 exLogp exActions3 exAdv3 (by decide)
  refine ⟨?_, ?_, ?_⟩
  · have h0 := h.1 0 (by decide)
    simpa [exActions3] using h0
  · have h1 := h.1 1 (by decide)
    simpa [exActions3] using h1
  · rw [h.2]
    norm_num [exLogp, exActions3, exAdv3, Finset.sum_range_succ,
      (show (2 : ℤ).toNat = 2 from rfl)]

/-- Claim C8 (amended): an action value produces an index error at the
flattened gather exactly when its flat index `i*A + actions[i]` falls outside
`[-(B*A), B*A)`; an out-of-range action whose flat index stays inside that
interval is gathered silently (selecting some other element of the flattened
buffer, see the counterexample). -/
theorem C8_gather_error_characterization (B A : ℕ) (logp : ℕ → ℕ → ℚ)
    (actions : ℕ → ℤ) (i : ℕ) :
    updateActProb B A logp actions i = none ↔
      (updateIndices A actions i < -((B * A : ℕ) : ℤ) ∨
        ((B * A : ℕ) : ℤ) ≤ updateIndices A actions i) := by
  unfold updateActProb gatherIdx
  simp only [flattenRM_length]
  by_cases h1 : (0 : ℤ) ≤ updateIndices A actions i
  · rw [if_pos h1, List.getElem?_eq_none_iff, flattenRM_length]
    omega
  · rw [if_neg h1]
    by_cases h2 : -((B * A : ℕ) : ℤ) ≤ updateIndices A actions i
    · rw [if_pos h2, List.getElem?_eq_none_iff, flattenRM_length]
      omega
    · rw [if_neg h2]
      refine iff_of_true rfl ?_
      omega

/-- Out-of-range actions for the C8 counterexample: row 0 takes the
out-of-range action 4 (with A = 3 columns). -/
def exActionsOOB : ℕ → ℤ := fun i => if i = 0 then 4 else 0

/-- Claim C8 counterexample: with B = 2, A = 3, the action 4 of row 0 lies
outside `[0, 3)`, yet the flattened-index gather does not error: flat index
`0*3 + 4 = 4` is in bounds for the length-6 buffer and silently selects
`log_probs[1, 1]`, an element of a different row. -/
theorem C8_counterexample_silent_gather :
    (3 : ℤ) ≤ exActionsOOB 0 ∧
    updateActProb 2 3 exLogp exActionsOOB 0 = some (exLogp 1 1) := by
  decide

/-- Bit length: the number of binary digits of a natural number. -/
def bitLen (n : ℕ) : ℕ := if n = 0 then 0 else Nat.log2 n + 1

/-- Round-to-nearest-even onto 24 significant bits: the integer value stored
when a natural number is converted to an ieee single-precision float, as
`torch_it` does with `dtype=torch.float32` on the `actions` tensor. -/
def f32roundNat (n : ℕ) : ℕ :=
  if bitLen n ≤ 24 then n
  else
    let e := bitLen n - 24
    let q := n / 2 ^ e
    let r := n % 2 ^ e
    if 2 * r < 2 ^ e then q * 2 ^ e
    else if 2 ^ e < 2 * r then (q + 1) * 2 ^ e
    else if q % 2 = 0 then q * 2 ^ e else (q + 1) * 2 ^ e

/-- The flat gather index as computed in `PolicyEstimator.update`: the action
is converted to float32 by `torch_it`, `torch.arange(0, B) * A` is exact
int64 arithmetic, the float32 addition rounds the sum, and `.long()`
truncates the integral float back to an integer (the identity on an integral
value, so it is not written separately). -/
def gatherIndexF32 (A a i : ℕ) : ℕ := f32roundNat (i * A + f32roundNat a)

theorem f32roundNat_eq_self (n : ℕ) (h : n ≤ 2 ^ 24) : f32roundNat n = n := by
  rcases Nat.eq_zero_or_pos n with h0 | h0
  · subst h0; rfl
  rcases Nat.lt_or_ge n (2 ^ 24) with hlt | hge
  · have hlog : Nat.log2 n < 24 := (Nat.log2_lt (Nat.pos_iff_ne_zero.mp h0)).mpr hlt
    have hb : bitLen n ≤ 24 := by
      rw [bitLen, if_neg (Nat.pos_iff_ne_zero.mp h0)]; omega
    rw [f32roundNat, if_pos hb]
  · have hn : n = 2 ^ 24 := le_antisymm h hge
    subst hn
    have hne : (2 ^ 24 : ℕ) ≠ 0 := by positivity
    have hlog : Nat.log2 (2 ^ 24) = 24 := by
      have ha : Nat.log2 (2 ^ 24) < 25 := (Nat.log2_lt hne).mpr (by norm_num)
      have hb : 24 ≤ Nat.log2 (2 ^ 24) := (Nat.le_log2 hne).mpr (le_refl _)
      omega
    have hb : bitLen (2 ^ 24) = 25 := by rw [bitLen, if_neg hne, hlog]
    rw [f32roundNat, if_neg (by omega), hb]
    norm_num

theorem f32roundNat_2pow24_add_one : f32roundNat (2 ^ 24 + 1) = 2 ^ 24 := by
  have hne : (2 ^ 24 + 1 : ℕ) ≠ 0 := by positivity
  have hlog : Nat.log2 (2 ^ 24 + 1) = 24 := by
    have ha : Nat.log2 (2 ^ 24 + 1) < 25 := (Nat.log2_lt hne).mpr (by norm_num)
    have hb : 24 ≤ Nat.log2 (2 ^ 24 + 1) := (Nat.le_log2 hne).mpr (by norm_num)
    omega
  have hb : bitLen (2 ^ 24 + 1) = 25 := by rw [bitLen, if_neg hne, hlog]
  rw [f32roundNat, if_neg (by omega), hb]
  norm_num

/-- Claim C10: the integer actions pass through float32 before the flat-index
arithmetic; whenever the flat index `i*A + actions[i]` is at most `2^24` the
int to float32 to int round-trip is the identity and the gather index agrees
with the exact index of the update model; at `2^24 + 1` exactness already
fails, so beyond the bound it is not guaranteed. -/
theorem C10_float32_index_roundtrip (A a i : ℕ) (h : i * A + a ≤ 2 ^ 24) :
    gatherIndexF32 A a i = i * A + a ∧
    ((gatherIndexF32 A a i : ℕ) : ℤ) = updateIndices A (fun _ => (a : ℤ)) i ∧
    f32roundNat (2 ^ 24 + 1) ≠ 2 ^ 24 + 1 := by
  have ha : a ≤ 2 ^ 24 := le_trans (Nat.le_add_left a (i * A)) h
  have hinner : f32roundNat a = a := f32roundNat_eq_self a ha
  have houter : gatherIndexF32 A a i = i * A + a := by
    rw [gatherIndexF32, hinner, f32roundNat_eq_self (i * A + a) h]
  refine ⟨houter, ?_, ?_⟩
  · rw [houter, updateIndices]; push_cast; ring
  · rw [f32roundNat_2pow24_add_one]; omega

theorem C10_float32_index_roundtrip_witness :
    gatherIndexF32 3 2 1 = 1 * 3 + 2 ∧
    ((gatherIndexF32 3 2 1 : ℕ) : ℤ) = updateIndices 3 (fun _ => (2 : ℤ)) 1 ∧
    f32roundNat (2 ^ 24 + 1) ≠ 2 ^ 24 + 1 :=
  C10_float32_index_roundtrip 3 2 1 (by decide)

variable {α : Type*} [LinearOrderedField α]

/-- Learned affine parameters and running statistics of a `BatchNorm1d`
layer: weight, bias, running mean, running variance, one value per channel. -/
structure BNP (α : Type*) where
  gamma : ℕ → α
  beta : ℕ → α
  runMean : ℕ → α
  runVar : ℕ → α

/-- Parameters of `AttNet`: the width-1 projection conv `self.emb`, the
three batch norms, the `MultiheadAttention` projections (query, key, value
slices of the packed in_proj weight and bias, plus the output projection),
and the two width-1 feed-forward convs. -/
structure AttNetP (α : Type*) where
  embW : ℕ → ℕ → α
  embB : ℕ → α
  embBn : BNP α
  wq : ℕ → ℕ → α
  wk : ℕ → ℕ → α
  wv : ℕ → ℕ → α
  wo : ℕ → ℕ → α
  bq : ℕ → α
  bk : ℕ → α
  bv : ℕ → α
  bo : ℕ → α
  mhaBn : BNP α
  innerW : ℕ → ℕ → α
  innerB : ℕ → α
  outerW : ℕ → ℕ → α
  outerB : ℕ → α
  ffBn : BNP α

/-- Parameters of `PolicyNetwork`: the `AttNet` block plus the hidden and
logits linear layers. -/
structure PolicyP (α : Type*) where
  attn : AttNetP α
  hiddenW : ℕ → ℕ → α
  hiddenB : ℕ → α
  logitsW : ℕ → ℕ → α
  logitsB : ℕ → α

/-- `Conv1d` with kernel size 1: a pointwise linear map over the channel
axis applied at every (batch, position) pair; input `[B, Cin, L]`, output
`[B, Cout, L]`. -/
def conv1 (Cin : ℕ) (W : ℕ → ℕ → α) (b : ℕ → α) (x : ℕ → ℕ → ℕ → α) :
    ℕ → ℕ → ℕ → α :=
  fun i c l => (∑ c2 ∈ range Cin, W c c2 * x i c2 l) + b c

/-- The `BatchNorm1d` eps default, 1e-5. -/
def bnEps : α := 1 / 100000

/-- Per-channel mean over the batch and position axes, as `BatchNorm1d`
computes it in training mode on a `[B, C, L]` input. -/
def bnMean (B L : ℕ) (x : ℕ → ℕ → ℕ → α) (c : ℕ) : α :=
  (∑ i ∈ range B, ∑ l ∈ range L, x i c l) / ((B * L : ℕ) : α)

/-- Per-channel biased variance over the batch and position axes, the
training-mode normalization statistic of `BatchNorm1d`. -/
def bnVar (B L : ℕ) (x : ℕ → ℕ → ℕ → α) (c : ℕ) : α :=
  (∑ i ∈ range B, ∑ l ∈ range L, (x i c l - bnMean B L x c) ^ 2)
    / ((B * L : ℕ) : α)

/-- `BatchNorm1d` forward in training mode (the estimator never switches the
network to eval mode, so every forward pass normalizes with the current
batch statistics): normalize, then scale and shift.  `sq` is the
square-root function of the numeric type. -/
def bnTrain (sq : α → α) (B L : ℕ) (p : BNP α) (x : ℕ → ℕ → ℕ → α) :
    ℕ → ℕ → ℕ → α :=
  fun i c l =>
    (x i c l - bnMean B L x c) / sq (bnVar B L x c + bnEps) * p.gamma c
      + p.beta c

/-- The running mean stored by a training-mode `BatchNorm1d` forward pass,
with the default momentum 0.1: `0.9 * old + 0.1 * batch_mean`. -/
def bnNewRunMean (B L : ℕ) (p : BNP α) (x : ℕ → ℕ → ℕ → α) (c : ℕ) : α :=
  (1 - 1 / 10) * p.runMean c + 1 / 10 * bnMean B L x c

/-- The running variance stored by a training-mode `BatchNorm1d` forward
pass: momentum 0.1 toward the Bessel-corrected batch variance (n = B * L). -/
def bnNewRunVar (B L : ℕ) (p : BNP α) (x : ℕ → ℕ → ℕ → α) (c : ℕ) : α :=
  (1 - 1 / 10) * p.runVar c
    + 1 / 10 * (bnVar B L x c * (((B * L : ℕ) : α) / (((B * L : ℕ) : α) - 1)))

/-- Linear projection of a `[L, B, E]` sequence tensor over the embedding
axis, used for the query, key, value and output projections of
`MultiheadAttention`. -/
def seqProj (E : ℕ) (W : ℕ → ℕ → α) (b : ℕ → α) (x : ℕ → ℕ → ℕ → α) :
    ℕ → ℕ → ℕ → α :=
  fun l i c => (∑ c2 ∈ range E, W c c2 * x l i c2) + b c

/-- Scaled dot-product score of head h between query position i and key
position j for batch row b: the head slice of channels is
`[h*dh, (h+1)*dh)` with `dh = E / H`, and the product is scaled by
`1 / sqrt dh`. -/
def mhaScore (sq : α → α) (E H : ℕ) (q k : ℕ → ℕ → ℕ → α) (b h i j : ℕ) :
    α :=
  (∑ d ∈ range (E / H), q i b (h * (E / H) + d) * k j b (h * (E / H) + d))
    / sq ((E / H : ℕ) : α)

/-- Softmax attention weight of head h over the key positions.  The source
applies dropout to these weights in training mode; the model omits dropout,
which cannot affect any statement below because the forward pass discards
the attention output (claim C2). -/
def mhaWeight (expf sq : α → α) (E H L : ℕ) (q k : ℕ → ℕ → ℕ → α)
    (b h i j : ℕ) : α :=
  expf (mhaScore sq E H q k b h i j)
    / ∑ j2 ∈ range L, expf (mhaScore sq E H q k b h i j2)

/-- `MultiheadAttention` forward on a `[L, B, E]` input with query = key =
value = x: project, attend per head (channel c belongs to head
`c / (E/H)`), concatenate heads, output-project. -/
def mhaForward (expf sq : α → α) (E H L : ℕ) (p : AttNetP α)
    (x : ℕ → ℕ → ℕ → α) : ℕ → ℕ → ℕ → α :=
  let q := seqProj E p.wq p.bq x
  let k := seqProj E p.wk p.bk x
  let v := seqProj E p.wv p.bv x
  let ctx : ℕ → ℕ → ℕ → α := fun i b c =>
    ∑ j ∈ range L, mhaWeight expf sq E H L q k b (c / (E / H)) i j * v j b c
  seqProj E p.wo p.bo ctx

set_option linter.unusedVariables false in
/-- `AttNet.forward` on a `[B, L, Etrip]` input, mirrored line by line from
the source: permute, width-1 conv plus first batch norm, permute to
`[L, B, E]`, multi-head attention followed by an in-place residual add whose
result is immediately overwritten (the binding mhaRes below is dead exactly
as in the source, where `mha_output` is reassigned on the next line from
`emb_input` alone), the second batch norm applied to the permuted
pre-attention `emb_input`, the pointwise feed-forward block with residual
and third batch norm, and sum-pooling over the position axis. -/
def attnetForward (expf sq : α → α) (B L Etrip E H F : ℕ) (p : AttNetP α)
    (input : ℕ → ℕ → ℕ → α) : ℕ → ℕ → α :=
  let inputP : ℕ → ℕ → ℕ → α := fun i c l => input i l c
  let embOut := conv1 Etrip p.embW p.embB inputP
  let embInput := bnTrain sq B L p.embBn embOut
  let embSeq : ℕ → ℕ → ℕ → α := fun l i c => embInput i c l
  let mhaOut := mhaForward expf sq E H L p embSeq
  let mhaRes : ℕ → ℕ → ℕ → α := fun l i c => mhaOut l i c + embSeq l i c
  let h1 := bnTrain sq B L p.mhaBn (fun i c l => embSeq l i c)
  let ffInner : ℕ → ℕ → ℕ → α :=
    fun i c l => max (conv1 E p.innerW p.innerB h1 i c l) 0
  let ffOut := conv1 F p.outerW p.outerB ffInner
  let res2 : ℕ → ℕ → ℕ → α := fun i c l => ffOut i c l + h1 i c l
  let h2 := bnTrain sq B L p.ffBn res2
  fun i c => ∑ l ∈ range L, h2 i c l

/-- The same pipeline with the attention call removed, the refinement target
of claim C2 (this definition follows the words of the specification, not the
source): projection plus first batch norm, second batch norm of the
projected input, feed-forward block with residual, third batch norm,
sum-pooling. -/
def attnetForwardNoAttn (sq : α → α) (B L Etrip E F : ℕ) (p : AttNetP α)
    (input : ℕ → ℕ → ℕ → α) : ℕ → ℕ → α :=
  let inputP : ℕ → ℕ → ℕ → α := fun i c l => input i l c
  let embOut := conv1 Etrip p.embW p.embB inputP
  let embInput := bnTrain sq B L p.embBn embOut
  let h1 := bnTrain sq B L p.mhaBn embInput
  let ffInner : ℕ → ℕ → ℕ → α :=
    fun i c l => max (conv1 E p.innerW p.innerB h1 i c l) 0
  let ffOut := conv1 F p.outerW p.outerB ffInner
  let res2 : ℕ → ℕ → ℕ → α := fun i c l => ffOut i c l + h1 i c l
  let h2 := bnTrain sq B L p.ffBn res2
  fun i c => ∑ l ∈ range L, h2 i c l

/-- The tensor the code actually feeds to the second batch norm: `mha_bn`
applied to the permuted pre-attention `emb_input` (source line 46). -/
def attnetH1Code (sq : α → α) (B L Etrip : ℕ) (p : AttNetP α)
    (input : ℕ → ℕ → ℕ → α) : ℕ → ℕ → ℕ → α :=
  let embInput := bnTrain sq B L p.embBn
    (conv1 Etrip p.embW p.embB (fun i c l => input i l c))
  bnTrain sq B L p.mhaBn embInput

/-- The post-attention block output as claim C1 states it: the second batch
norm applied to attention output plus projected input (residual).  This
definition follows the words of the claim, for comparison with
`attnetH1Code`. -/
def attnetH1Claimed (expf sq : α → α) (B L Etrip E H : ℕ) (p : AttNetP α)
    (input : ℕ → ℕ → ℕ → α) : ℕ → ℕ → ℕ → α :=
  let embInput := bnTrain sq B L p.embBn
    (conv1 Etrip p.embW p.embB (fun i c l => input i l c))
  let embSeq : ℕ → ℕ → ℕ → α := fun l i c => embInput i c l
  let mhaOut := mhaForward expf sq E H L p embSeq
  bnTrain sq B L p.mhaBn (fun i c l => mhaOut l i c + embSeq l i c)

/-- `BatchNorm1d` raises in training mode when the batch contributes a
single value per channel (B * L = 1, torch _verify_batch_size); `none`
models that raised error. -/
def bnTrainChecked (sq : α → α) (B L : ℕ) (p : BNP α)
    (x : ℕ → ℕ → ℕ → α) : Option (ℕ → ℕ → ℕ → α) :=
  if B * L = 1 then none else some (bnTrain sq B L p x)

set_option linter.unusedVariables false in
/-- `AttNet.forward` with the batch-size check of each `BatchNorm1d` made
explicit: `none` exactly when one of the three batch norms raises. -/
def encodeChecked (expf sq : α → α) (B L Etrip E H F : ℕ) (p : AttNetP α)
    (input : ℕ → ℕ → ℕ → α) : Option (ℕ → ℕ → α) :=
  let inputP : ℕ → ℕ → ℕ → α := fun i c l => input i l c
  let embOut := conv1 Etrip p.embW p.embB inputP
  (bnTrainChecked sq B L p.embBn embOut).bind fun embInput =>
  let embSeq : ℕ → ℕ → ℕ → α := fun l i c => embInput i c l
  let mhaOut := mhaForward expf sq E H L p embSeq
  let mhaRes : ℕ → ℕ → ℕ → α := fun l i c => mhaOut l i c + embSeq l i c
  (bnTrainChecked sq B L p.mhaBn (fun i c l => embSeq l i c)).bind fun h1 =>
  let ffInner : ℕ → ℕ → ℕ → α :=
    fun i c l => max (conv1 E p.innerW p.innerB h1 i c l) 0
  let ffOut := conv1 F p.outerW p.outerB ffInner
  let res2 : ℕ → ℕ → ℕ → α := fun i c l => ffOut i c l + h1 i c l
  (bnTrainChecked sq B L p.ffBn res2).bind fun h2 =>
  some (fun i c => ∑ l ∈ range L, h2 i c l)

/-- `PolicyNetwork.forward`: concatenate state `[B, Nobs]` with the pooled
attention features `[B, E]` (state first, as `torch.cat((state, attn), 1)`),
apply the hidden linear plus relu, the logits linear with n_act - 1 outputs,
and a row-wise softmax.  `PolicyEstimator.predict` converts its inputs to
float32 tensors (`torch_it`, exact in this model) and calls this. -/
def policyForward (expf sq : α → α) (B L Etrip E H F Nobs Hid nAct : ℕ)
    (p : PolicyP α) (state : ℕ → ℕ → α) (trip : ℕ → ℕ → ℕ → α) :
    ℕ → ℕ → α :=
  let pooled := attnetForward expf sq B L Etrip E H F p.attn trip
  let inputs : ℕ → ℕ → α := fun i j =>
    if j < Nobs then state i j else pooled i (j - Nobs)
  let hidden : ℕ → ℕ → α := fun i j =>
    max ((∑ j2 ∈ range (Nobs + E), p.hiddenW j j2 * inputs i j2)
      + p.hiddenB j) 0
  let logits : ℕ → ℕ → α := fun i a =>
    (∑ j ∈ range Hid, p.logitsW a j * hidden i j) + p.logitsB a
  fun i a => expf (logits i a) / ∑ a2 ∈ range (nAct - 1), expf (logits i a2)

/-- `PolicyNetwork.forward` on top of the attention-free pipeline, the
refinement target of claim C2. -/
def policyForwardNoAttn (sq : α → α) (B L Etrip E F Nobs Hid nAct : ℕ)
    (expf : α → α) (p : PolicyP α) (state : ℕ → ℕ → α)
    (trip : ℕ → ℕ → ℕ → α) : ℕ → ℕ → α :=
  let pooled := attnetForwardNoAttn sq B L Etrip E F p.attn trip
  let inputs : ℕ → ℕ → α := fun i j =>
    if j < Nobs then state i j else pooled i (j - Nobs)
  let hidden : ℕ → ℕ → α := fun i j =>
    max ((∑ j2 ∈ range (Nobs + E), p.hiddenW j j2 * inputs i j2)
      + p.hiddenB j) 0
  let logits : ℕ → ℕ → α := fun i a =>
    (∑ j ∈ range Hid, p.logitsW a j * hidden i j) + p.logitsB a
  fun i a => expf (logits i a) / ∑ a2 ∈ range (nAct - 1), expf (logits i a2)

/-- The emb_bn running mean stored after one `predict` call: the
training-mode forward of the first batch norm updates its running
statistics from the batch mean of the projection output. -/
def predictEmbBnRunMeanAfter (B L Etrip : ℕ) (p : PolicyP α)
    (trip : ℕ → ℕ → ℕ → α) (c : ℕ) : α :=
  bnNewRunMean B L p.attn.embBn
    (conv1 Etrip p.attn.embW p.attn.embB (fun i c2 l => trip i l c2)) c

/-- Claim C2: the value of `AttNet.forward` (hence of predict) is
independent of the multi-head self-attention sub-layer: the forward pass is
extensionally equal to the same pipeline with the attention call removed,
because the second batch norm is computed from the pre-attention
`emb_input` and the residual-added attention output is discarded (source
line 46 normalizes `emb_input.permute([1,2,0])`, not the updated
`mha_output`). -/
theorem C2_attention_inert (expf sq : α → α)
    (B L Etrip E H F Nobs Hid nAct : ℕ) (p : PolicyP α)
    (state : ℕ → ℕ → α) (trip : ℕ → ℕ → ℕ → α) :
    attnetForward expf sq B L Etrip E H F p.attn trip
        = attnetForwardNoAttn sq B L Etrip E F p.attn trip ∧
    policyForward expf sq B L Etrip E H F Nobs Hid nAct p state trip
        = policyForwardNoAttn sq B L Etrip E F Nobs Hid nAct expf p state
            trip :=
  ⟨rfl, rfl⟩

/-- Claim C4: every output row of predict is a categorical distribution over
the n_act - 1 modeled actions: all entries are nonnegative and each row sums
to one (exactly, in this exact-arithmetic model of float evaluation), for
every parameter setting and every input, whenever n_act ≥ 2. -/
theorem C4_distribution_validity (B L Etrip E H F Nobs Hid k : ℕ)
    (p : PolicyP ℝ) (state : ℕ → ℕ → ℝ) (trip : ℕ → ℕ → ℕ → ℝ) (i : ℕ) :
    (∀ a, 0 ≤ policyForward Real.exp Real.sqrt B L Etrip E H F Nobs Hid
        (k + 2) p state trip i a) ∧
    ∑ a ∈ range ((k + 2) - 1), policyForward Real.exp Real.sqrt B L Etrip E
        H F Nobs Hid (k + 2) p state trip i a = 1 := by
  have hpos : ∀ (z : ℕ → ℝ), 0 < ∑ a2 ∈ range (k + 1), Real.exp (z a2) :=
    fun z => Finset.sum_pos (fun j _ => Real.exp_pos _)
      (Finset.nonempty_range_iff.mpr (Nat.succ_ne_zero k))
  constructor
  · intro a
    simp only [policyForward]
    exact div_nonneg (le_of_lt (Real.exp_pos _)) (le_of_lt (hpos _))
  · simp only [policyForward]
    rw [← Finset.sum_div]
    exact div_self (ne_of_gt (hpos _))

/-- Claim C9 (amended): encode is defined and produces its `[B, E]` result
for every B ≥ 1 and L ≥ 1 with B * L ≥ 2 (in particular for L = 1 whenever
B ≥ 2): none of the three batch norms raises and the checked pipeline
returns exactly the forward value.  The remaining degenerate case B = L = 1
is excluded; there training-mode `BatchNorm1d` raises (see the
counterexample). -/
theorem C9_encode_defined (B L Etrip E H F : ℕ) (p : AttNetP ℝ)
    (trip : ℕ → ℕ → ℕ → ℝ) (h : 2 ≤ B * L) :
    encodeChecked Real.exp Real.sqrt B L Etrip E H F p trip
      = some (attnetForward Real.exp Real.sqrt B L Etrip E H F p trip) := by
  have hne : ¬ (B * L = 1) := by omega
  simp only [encodeChecked, bnTrainChecked, if_neg hne]
  rfl

/-- Default-initialized batch norm parameters: weight 1, bias 0, running
mean 0, running variance 1. -/
def bnInit : BNP ℝ :=
  { gamma := fun _ => 1, beta := fun _ => 0
    runMean := fun _ => 0, runVar := fun _ => 1 }

/-- An all-zero `AttNet` parameter record with default batch norms, used to
instantiate the checked encode at concrete shapes. -/
def exAttNet0 : AttNetP ℝ :=
  { embW := fun _ _ => 0, embB := fun _ => 0, embBn := bnInit
    wq := fun _ _ => 0, wk := fun _ _ => 0, wv := fun _ _ => 0
    wo := fun _ _ => 0, bq := fun _ => 0, bk := fun _ => 0
    bv := fun _ => 0, bo := fun _ => 0, mhaBn := bnInit
    innerW := fun _ _ => 0, innerB := fun _ => 0
    outerW := fun _ _ => 0, outerB := fun _ => 0, ffBn := bnInit }

theorem C9_encode_defined_witness :
    encodeChecked Real.exp Real.sqrt 1 2 1 8 8 64 exAttNet0 (fun _ _ _ => 0)
      = some (attnetForward Real.exp Real.sqrt 1 2 1 8 8 64 exAttNet0
          (fun _ _ _ => 0)) :=
  C9_encode_defined 1 2 1 8 8 64 exAttNet0 (fun _ _ _ => 0) (by decide)

/-- Claim C9 counterexample: at B = 1, L = 1 the very first batch norm sees
one value per channel and training-mode `BatchNorm1d` raises
(_verify_batch_size), so encode errors at the degenerate case L = 1 with
B = 1 that the claim includes. -/
theorem C9_counterexample_single_element_batch :
    encodeChecked Real.exp Real.sqrt 1 1 1 8 8 64 exAttNet0 (fun _ _ _ => 0)
      = none := by
  simp [encodeChecked, bnTrainChecked]

/-- Claim C7 (amended): predict mutates no learnable parameter (the forward
pass is a pure function of the parameter record), but it does write the
normalization-layer statistics: after one predict call the stored running
mean of the first batch norm is the momentum-0.1 blend with the batch mean
of the projection output, hence it is unchanged exactly when that batch mean
already equals the stored value. -/
theorem C7_running_mean_update (B L Etrip : ℕ) (p : PolicyP α)
    (trip : ℕ → ℕ → ℕ → α) (c : ℕ) :
    predictEmbBnRunMeanAfter B L Etrip p trip c = p.attn.embBn.runMean c ↔
      bnMean B L (conv1 Etrip p.attn.embW p.attn.embB
          (fun i c2 l => trip i l c2)) c = p.attn.embBn.runMean c := by
  unfold predictEmbBnRunMeanAfter bnNewRunMean
  constructor
  · intro h; linarith
  · intro h; rw [h]; ring

theorem half_sum_div (L : ℕ) (S : α) :
    (S + S) / ((2 * L : ℕ) : α) = S / ((1 * L : ℕ) : α) := by
  push_cast
  rw [← two_mul, one_mul]
  exact mul_div_mul_left S ((L : ℕ) : α) two_ne_zero

theorem bnMean_dup (L : ℕ) (x : ℕ → ℕ → ℕ → α) (c : ℕ) :
    bnMean 2 L (fun i2 c2 l2 => x 0 c2 l2) c = bnMean 1 L x c := by
  simp only [bnMean, Finset.sum_range_succ, Finset.sum_range_zero, zero_add]
  exact half_sum_div L _

theorem bnVar_dup (L : ℕ) (x : ℕ → ℕ → ℕ → α) (c : ℕ) :
    bnVar 2 L (fun i2 c2 l2 => x 0 c2 l2) c = bnVar 1 L x c := by
  simp only [bnVar, bnMean_dup, Finset.sum_range_succ, Finset.sum_range_zero,
    zero_add]
  exact half_sum_div L _

/-- A training-mode batch norm cannot tell a batch of two copies of one row
from the single row: batch statistics agree, so the normalized values agree
pointwise. -/
theorem bnTrain_dup_pt (sq : α → α) (L : ℕ) (p : BNP α)
    (x : ℕ → ℕ → ℕ → α) (i c l : ℕ) :
    bnTrain sq 2 L p (fun i2 c2 l2 => x 0 c2 l2) i c l
      = bnTrain sq 1 L p x 0 c l := by
  simp only [bnTrain, bnMean_dup, bnVar_dup]

/-- Stacking two copies of one trip row through the whole attention block
gives each copy the single-row encoding. -/
theorem attnet_dup (expf sq : α → α) (L Etrip E H F : ℕ) (p : AttNetP α)
    (trip : ℕ → ℕ → ℕ → α) (i c : ℕ) :
    attnetForward expf sq 2 L Etrip E H F p (fun _ l2 c2 => trip 0 l2 c2) i c
      = attnetForward expf sq 1 L Etrip E H F p trip 0 c := by
  have st1 : bnTrain sq 2 L p.embBn
      (conv1 Etrip p.embW p.embB (fun i2 c2 l2 => trip 0 l2 c2))
      = fun i2 c2 l2 => bnTrain sq 1 L p.embBn
          (conv1 Etrip p.embW p.embB (fun i3 c3 l3 => trip i3 l3 c3))
          0 c2 l2 := by
    funext i2 c2 l2
    exact bnTrain_dup_pt sq L p.embBn
      (conv1 Etrip p.embW p.embB (fun i3 c3 l3 => trip i3 l3 c3)) i2 c2 l2
  have st2 : bnTrain sq 2 L p.mhaBn
      (fun i2 c2 l2 => bnTrain sq 1 L p.embBn
        (conv1 Etrip p.embW p.embB (fun i3 c3 l3 => trip i3 l3 c3)) 0 c2 l2)
      = fun i2 c2 l2 => bnTrain sq 1 L p.mhaBn
          (bnTrain sq 1 L p.embBn
            (conv1 Etrip p.embW p.embB (fun i3 c3 l3 => trip i3 l3 c3)))
          0 c2 l2 := by
    funext i2 c2 l2
    exact bnTrain_dup_pt sq L p.mhaBn _ i2 c2 l2
  simp only [attnetForward]
  simp only [st1]
  simp only [st2]
  refine Finset.sum_congr rfl fun l2 _ => ?_
  exact bnTrain_dup_pt sq L p.ffBn
    (fun i3 c3 l3 =>
      conv1 F p.outerW p.outerB
          (fun i4 c4 l4 =>
            max (conv1 E p.innerW p.innerB
              (bnTrain sq 1 L p.mhaBn fun i5 c5 l5 =>
                bnTrain sq 1 L p.embBn
                  (conv1 Etrip p.embW p.embB fun i6 c6 l6 => trip i6 l6 c6)
                  i5 c5 l5)
              i4 c4 l4) 0)
          i3 c3 l3
        + bnTrain sq 1 L p.mhaBn
            (fun i5 c5 l5 => bnTrain sq 1 L p.embBn
              (conv1 Etrip p.embW p.embB fun i6 c6 l6 => trip i6 l6 c6)
              i5 c5 l5) i3 c3 l3)
    i c l2

/-- Claim C6 (amended): predict is invariant under duplicating a single-row
batch: stacking two copies of one row produces, for each output row, exactly
the single-row result, because duplication preserves every batch-norm
statistic.  For two distinct rows the claim fails (see the counterexample):
training-mode batch normalization couples the rows. -/
theorem C6_duplicate_batch_invariance (expf sq : α → α)
    (L Etrip E H F Nobs Hid nAct : ℕ) (p : PolicyP α)
    (state : ℕ → ℕ → α) (trip : ℕ → ℕ → ℕ → α) (i a : ℕ) :
    policyForward expf sq 2 L Etrip E H F Nobs Hid nAct p
        (fun _ j => state 0 j) (fun _ l2 c2 => trip 0 l2 c2) i a
      = policyForward expf sq 1 L Etrip E H F Nobs Hid nAct p state trip
          0 a := by
  have hpool : ∀ c, attnetForward expf sq 2 L Etrip E H F p.attn
      (fun _ l2 c2 => trip 0 l2 c2) i c
      = attnetForward expf sq 1 L Etrip E H F p.attn trip 0 c :=
    fun c => attnet_dup expf sq L Etrip E H F p.attn trip i c
  simp only [policyForward, hpool]

/-- Identity weight matrix. -/
def idW : ℕ → ℕ → ℝ := fun c c2 => if c = c2 then 1 else 0

/-- Concrete `AttNet` parameters for the post-attention counterexamples:
the projection reads the single trip feature into channel 0, the attention
value and output projections are the identity, query and key projections
are zero, the feed-forward convs are zero, and all batch norms carry the
default initialization. -/
def exAttNetC1 : AttNetP ℝ :=
  { embW := fun c c2 => if c = 0 ∧ c2 = 0 then 1 else 0, embB := fun _ => 0
    embBn := bnInit
    wq := fun _ _ => 0, wk := fun _ _ => 0, wv := idW, wo := idW
    bq := fun _ => 0, bk := fun _ => 0, bv := fun _ => 0, bo := fun _ => 0
    mhaBn := bnInit
    innerW := fun _ _ => 0, innerB := fun _ => 0
    outerW := fun _ _ => 0, outerB := fun _ => 0, ffBn := bnInit }

/-- Concrete trip batch (B = 2, L = 1, Etrip = 1): row 0 carries feature 0,
row 1 carries feature 1. -/
def exTripC1 : ℕ → ℕ → ℕ → ℝ := fun i _ _ => if i = 1 then 1 else 0

theorem idW_sum (n c : ℕ) (h : c < n) (f : ℕ → ℝ) :
    ∑ c2 ∈ range n, idW c c2 * f c2 = f c := by
  rw [Finset.sum_eq_single c]
  · simp [idW]
  · intro b _ hb
    have hcb : c ≠ b := fun hcb => hb hcb.symm
    simp [idW, hcb]
  · intro hc
    exact absurd (mem_range.mpr h) hc

/-- With query and key projections zero, value and output projections the
identity and a single position (L = 1), the attention output at channel 0
is just the channel-0 input of position 0: the softmax over one key is 1. -/
theorem c1_mha (x : ℕ → ℕ → ℕ → ℝ) (l b : ℕ) :
    mhaForward Real.exp Real.sqrt 8 8 1 exAttNetC1 x l b 0 = x 0 b 0 := by
  have hwo : exAttNetC1.wo = idW := rfl
  have hwv : exAttNetC1.wv = idW := rfl
  have hbo : exAttNetC1.bo = fun _ => 0 := rfl
  have hbv : exAttNetC1.bv = fun _ => 0 := rfl
  simp only [mhaForward, seqProj, hwo, hwv, hbo, hbv, add_zero]
  rw [idW_sum 8 0 (by norm_num)]
  simp only [mhaWeight, Finset.sum_range_one]
  rw [div_self (Real.exp_ne_zero _), one_mul]
  rw [idW_sum 8 0 (by norm_num)]

theorem c1_conv (i l : ℕ) :
    conv1 1 exAttNetC1.embW exAttNetC1.embB
      (fun i2 c l2 => exTripC1 i2 l2 c) i 0 l = if i = 1 then 1 else 0 := by
  simp [conv1, exAttNetC1, exTripC1, Finset.sum_range_succ]

theorem c1_conv_mean :
    bnMean 2 1 (conv1 1 exAttNetC1.embW exAttNetC1.embB
      (fun i2 c l2 => exTripC1 i2 l2 c)) 0 = 1 / 2 := by
  simp [bnMean, Finset.sum_range_succ, c1_conv]

theorem c1_conv_var :
    bnVar 2 1 (conv1 1 exAttNetC1.embW exAttNetC1.embB
      (fun i2 c l2 => exTripC1 i2 l2 c)) 0 = 1 / 4 := by
  simp [bnVar, Finset.sum_range_succ, c1_conv, c1_conv_mean]
  norm_num

/-- Channel-0 values of the projected and batch-normalized input
`emb_input`: row 1 normalizes to (1/2)/sqrt(1/4 + eps), every other row to
the negative of that. -/
theorem c1_embInput (i l : ℕ) :
    bnTrain Real.sqrt 2 1 exAttNetC1.embBn
      (conv1 1 exAttNetC1.embW exAttNetC1.embB
        (fun i2 c l2 => exTripC1 i2 l2 c)) i 0 l
      = (if i = 1 then (1 : ℝ) / 2 else -(1 / 2))
          / Real.sqrt (1 / 4 + bnEps) := by
  have hg : exAttNetC1.embBn.gamma 0 = 1 := rfl
  have hb : exAttNetC1.embBn.beta 0 = 0 := rfl
  simp only [bnTrain, c1_conv_mean, c1_conv_var, c1_conv, hg, hb, mul_one,
    add_zero]
  rcases eq_or_ne i 1 with h | h
  · simp only [h, if_pos rfl]
    norm_num
  · simp [h]

/-- Evaluation of a training-mode batch norm at B = 2, L = 1, for a channel
with default weight and bias. -/
theorem bnTrain_two_one (p : BNP ℝ) (x : ℕ → ℕ → ℕ → ℝ) (c : ℕ)
    (hg : p.gamma c = 1) (hb : p.beta c = 0) :
    bnTrain Real.sqrt 2 1 p x 1 c 0
      = (x 1 c 0 - (x 0 c 0 + x 1 c 0) / 2)
        / Real.sqrt (((x 0 c 0 - (x 0 c 0 + x 1 c 0) / 2) ^ 2
            + (x 1 c 0 - (x 0 c 0 + x 1 c 0) / 2) ^ 2) / 2 + bnEps) := by
  have hm : bnMean 2 1 x c = (x 0 c 0 + x 1 c 0) / 2 := by
    simp [bnMean, Finset.sum_range_succ]
  have hv : bnVar 2 1 x c = ((x 0 c 0 - (x 0 c 0 + x 1 c 0) / 2) ^ 2
      + (x 1 c 0 - (x 0 c 0 + x 1 c 0) / 2) ^ 2) / 2 := by
    simp [bnVar, Finset.sum_range_succ, hm]
  simp [bnTrain, hm, hv, hg, hb]

/-- Batch normalization is not scale invariant: doubling a two-point
(-u, u) batch does not double-normalize to the same value, because eps
breaks the scaling.  This is the arithmetic core of the C1 counterexample. -/
theorem bn_scale_sensitive (u e : ℝ) (hu : 0 < u) (he : 0 < e) :
    2 * u / Real.sqrt (4 * u ^ 2 + e) ≠ u / Real.sqrt (u ^ 2 + e) := by
  have hB : (0 : ℝ) < u ^ 2 + e := by positivity
  have hA : (0 : ℝ) < 4 * u ^ 2 + e := by positivity
  have hsB : (0 : ℝ) < Real.sqrt (u ^ 2 + e) := Real.sqrt_pos.mpr hB
  have hsA : (0 : ℝ) < Real.sqrt (4 * u ^ 2 + e) := Real.sqrt_pos.mpr hA
  intro h
  rw [div_eq_div_iff (ne_of_gt hsA) (ne_of_gt hsB)] at h
  have h2 : u * (2 * Real.sqrt (u ^ 2 + e))
      = u * Real.sqrt (4 * u ^ 2 + e) := by linarith
  have h3 := mul_left_cancel₀ (ne_of_gt hu) h2
  have h4 := congrArg (fun z => z ^ 2) h3
  simp only [mul_pow] at h4
  rw [Real.sq_sqrt (le_of_lt hB), Real.sq_sqrt (le_of_lt hA)] at h4
  linarith

/-- The two candidate post-attention tensors differ: normalizing the
doubled batch (residual plus attention, which here reproduces the input)
is not the same as normalizing the plain projected input. -/
theorem bn_two_one_double_ne (u : ℝ) (hu : 0 < u) (p : BNP ℝ)
    (y x : ℕ → ℕ → ℕ → ℝ) (c : ℕ) (hg : p.gamma c = 1) (hb : p.beta c = 0)
    (hy0 : y 0 c 0 = -(2 * u)) (hy1 : y 1 c 0 = 2 * u)
    (hx0 : x 0 c 0 = -u) (hx1 : x 1 c 0 = u) :
    bnTrain Real.sqrt 2 1 p y 1 c 0 ≠ bnTrain Real.sqrt 2 1 p x 1 c 0 := by
  rw [bnTrain_two_one p y c hg hb, bnTrain_two_one p x c hg hb,
    hy0, hy1, hx0, hx1]
  have e1 : 2 * u - (-(2 * u) + 2 * u) / 2 = 2 * u := by ring
  have e2 : ((-(2 * u) - (-(2 * u) + 2 * u) / 2) ^ 2 + (2 * u) ^ 2) / 2
      + bnEps = 4 * u ^ 2 + bnEps := by rw [bnEps]; ring
  have e3 : u - (-u + u) / 2 = u := by ring
  have e4 : ((-u - (-u + u) / 2) ^ 2 + u ^ 2) / 2 + bnEps
      = u ^ 2 + bnEps := by rw [bnEps]; ring
  rw [e1, e2, e3, e4]
  exact bn_scale_sensitive u bnEps hu (by norm_num [bnEps])

/-- Claim C1 (code bug): the specification says the block output h1 equals
batchnorm(attention_output + projected_input), but source line 46 applies
`mha_bn` to `emb_input.permute([1,2,0])`, the pre-attention projected
input, after computing and discarding the residual sum.  At the concrete
instance (B = 2, L = 1, Etrip = 1, E = 8, H = 8, projection reading the
trip feature into channel 0, identity value and output projections), the
attention output reproduces `emb_input`, the residual doubles it, and the
two normalizations differ at batch row 1, channel 0, position 0. -/
theorem C1_post_attention_norm_mismatch :
    attnetH1Claimed Real.exp Real.sqrt 2 1 1 8 8 exAttNetC1 exTripC1 1 0 0
      ≠ attnetH1Code Real.sqrt 2 1 1 exAttNetC1 exTripC1 1 0 0 := by
  have hs : (0 : ℝ) < Real.sqrt (1 / 4 + bnEps) :=
    Real.sqrt_pos.mpr (by norm_num [bnEps])
  have hu : (0 : ℝ) < 1 / 2 / Real.sqrt (1 / 4 + bnEps) := by positivity
  simp only [attnetH1Claimed, attnetH1Code]
  apply bn_two_one_double_ne (1 / 2 / Real.sqrt (1 / 4 + bnEps)) hu
  · rfl
  · rfl
  · show mhaForward Real.exp Real.sqrt 8 8 1 exAttNetC1 _ 0 0 0 + _ = _
    rw [c1_mha, c1_embInput]
    norm_num
    ring
  · show mhaForward Real.exp Real.sqrt 8 8 1 exAttNetC1 _ 0 1 0 + _ = _
    rw [c1_mha, c1_embInput]
    norm_num
    ring
  · rw [c1_embInput]
    norm_num [neg_div]
  · rw [c1_embInput]
    norm_num

/-- Concrete policy parameters for the state-mutation counterexample of
claim C7: projection reads the trip feature into channel 0, everything
else zero or default. -/
def exPolicyC7 : PolicyP ℝ :=
  { attn := exAttNetC1, hiddenW := fun _ _ => 0, hiddenB := fun _ => 0
    logitsW := fun _ _ => 0, logitsB := fun _ => 0 }

/-- Concrete trip batch for C7 (B = 2, L = 1, Etrip = 1): rows 0 and 2. -/
def exTripC7 : ℕ → ℕ → ℕ → ℝ := fun i _ _ => if i = 1 then 2 else 0

/-- Claim C7 counterexample: one `predict` call changes persistent state.
With the concrete parameters above, the projection output has channel-0
batch mean 1, so the stored running mean of the first batch norm moves from
0 to 0.1: normalization-layer statistics are modified by predict. -/
theorem C7_counterexample_running_stats_change :
    predictEmbBnRunMeanAfter 2 1 1 exPolicyC7 exTripC7 0
      ≠ exPolicyC7.attn.embBn.runMean 0 := by
  have hc : ∀ i l : ℕ, conv1 1 exPolicyC7.attn.embW exPolicyC7.attn.embB
      (fun i2 c l2 => exTripC7 i2 l2 c) i 0 l
      = if i = 1 then 2 else 0 := by
    intro i l
    simp [conv1, exPolicyC7, exAttNetC1, exTripC7, Finset.sum_range_succ]
  have hm : bnMean 2 1 (conv1 1 exPolicyC7.attn.embW exPolicyC7.attn.embB
      (fun i2 c l2 => exTripC7 i2 l2 c)) 0 = 1 := by
    simp [bnMean, Finset.sum_range_succ, hc]
  have hrm : exPolicyC7.attn.embBn.runMean 0 = 0 := rfl
  rw [predictEmbBnRunMeanAfter, bnNewRunMean, hm, hrm]
  norm_num

theorem bnVar_nonneg (B L : ℕ) (x : ℕ → ℕ → ℕ → α) (c : ℕ) :
    0 ≤ bnVar B L x c := by
  apply div_nonneg
  · exact Finset.sum_nonneg fun i _ => Finset.sum_nonneg fun l _ => sq_nonneg _
  · exact Nat.cast_nonneg _

theorem bn_single_row_sum2 (sq : α → α) (p : BNP α) (x : ℕ → ℕ → ℕ → α)
    (c : ℕ) :
    ∑ l ∈ range 2, bnTrain sq 1 2 p x 0 c l = 2 * p.beta c := by
  have hm : bnMean 1 2 x c = (x 0 c 0 + x 0 c 1) / 2 := by
    simp only [bnMean, Finset.sum_range_succ, Finset.sum_range_zero, zero_add,
      Finset.sum_range_one]
    norm_num
  simp only [bnTrain, Finset.sum_range_succ, Finset.sum_range_zero, zero_add,
    hm]
  ring

/-- The pooled encoding of a single-row, length-2 batch is the constant
2 * beta of the final batch norm, independent of the input: summing a
batch-normalized tensor over exactly the positions that formed its batch
statistics gives zero plus the shift. -/
theorem attnet_single_row (expf sq : α → α) (Etrip E H F : ℕ)
    (p : AttNetP α) (hb : ∀ c2, p.ffBn.beta c2 = 0) (trip : ℕ → ℕ → ℕ → α)
    (c : ℕ) :
    attnetForward expf sq 1 2 Etrip E H F p trip 0 c = 0 := by
  simp only [attnetForward]
  rw [bn_single_row_sum2, hb c, mul_zero]

/-- A channel that is identically zero stays zero through a training-mode
batch norm with zero shift. -/
theorem bnTrain_zero_channel (sq : α → α) (B L : ℕ) (p : BNP α)
    (x : ℕ → ℕ → ℕ → α) (c : ℕ) (hx : ∀ i l, x i c l = 0)
    (hb : p.beta c = 0) (i l : ℕ) : bnTrain sq B L p x i c l = 0 := by
  have hm : bnMean B L x c = 0 := by
    simp [bnMean, hx]
  simp [bnTrain, hm, hx, hb]

/-- Batched trip input of the C6 counterexample (B = 2, L = 2, Etrip = 1):
row 0 is the sequence (0, 1), row 1 the sequence (0, 2). -/
def exTripC6 : ℕ → ℕ → ℕ → ℝ :=
  fun i l _ => if i = 1 then (if l = 1 then 2 else 0)
    else (if l = 1 then 1 else 0)

/-- The first row of the batched C6 input, alone. -/
def exTripC6s : ℕ → ℕ → ℕ → ℝ := fun _ l _ => if l = 1 then 1 else 0

/-- Policy parameters of the C6 counterexample: the attention block of
`exAttNetC1`, one hidden unit reading the pooled channel 0 (concatenation
index Nobs = 1) with weight -1, and two logits of which logit 0 reads the
hidden unit with weight 1. -/
def exPolicyC6 : PolicyP ℝ :=
  { attn := exAttNetC1
    hiddenW := fun j j2 => if j = 0 ∧ j2 = 1 then -1 else 0
    hiddenB := fun _ => 0
    logitsW := fun a j => if a = 0 ∧ j = 0 then 1 else 0
    logitsB := fun _ => 0 }

/-- Projection output of the batched C6 input. -/
noncomputable def c6conv : ℕ → ℕ → ℕ → ℝ :=
  conv1 1 exAttNetC1.embW exAttNetC1.embB (fun i c l => exTripC6 i l c)

/-- First batch norm output (emb_input) of the batched C6 input. -/
noncomputable def c6EI : ℕ → ℕ → ℕ → ℝ := bnTrain Real.sqrt 2 2 exAttNetC1.embBn c6conv

/-- Second batch norm output (the code h1) of the batched C6 input. -/
noncomputable def c6H1 : ℕ → ℕ → ℕ → ℝ := bnTrain Real.sqrt 2 2 exAttNetC1.mhaBn c6EI

/-- Residual feed-forward output of the batched C6 input. -/
noncomputable def c6res2 : ℕ → ℕ → ℕ → ℝ := fun i c l =>
  conv1 64 exAttNetC1.outerW exAttNetC1.outerB
    (fun i2 c2 l2 =>
      max (conv1 8 exAttNetC1.innerW exAttNetC1.innerB c6H1 i2 c2 l2) 0)
    i c l + c6H1 i c l

/-- Third batch norm output of the batched C6 input. -/
noncomputable def c6H2 : ℕ → ℕ → ℕ → ℝ := bnTrain Real.sqrt 2 2 exAttNetC1.ffBn c6res2

/-- The positive denominator collecting the three normalizations of the
batched C6 input at channel 0. -/
noncomputable def c6D : ℝ :=
  Real.sqrt (11 / 16 + bnEps)
    * (Real.sqrt (bnVar 2 2 c6EI 0 + bnEps)
      * Real.sqrt (bnVar 2 2 c6res2 0 + bnEps))

theorem c6conv_val (i l : ℕ) : c6conv i 0 l = exTripC6 i l 0 := by
  simp [c6conv, conv1, exAttNetC1, Finset.sum_range_succ]

theorem c6conv_zero (c : ℕ) (hc : c ≠ 0) (i l : ℕ) : c6conv i c l = 0 := by
  simp [c6conv, conv1, exAttNetC1, Finset.sum_range_succ, hc]

theorem c6EI_zero (c : ℕ) (hc : c ≠ 0) (i l : ℕ) : c6EI i c l = 0 :=
  bnTrain_zero_channel Real.sqrt 2 2 exAttNetC1.embBn c6conv c
    (c6conv_zero c hc) rfl i l

theorem c6H1_zero (c : ℕ) (hc : c ≠ 0) (i l : ℕ) : c6H1 i c l = 0 :=
  bnTrain_zero_channel Real.sqrt 2 2 exAttNetC1.mhaBn c6EI c
    (c6EI_zero c hc) rfl i l

theorem c6outer_zero (x : ℕ → ℕ → ℕ → ℝ) (i c l : ℕ) :
    conv1 64 exAttNetC1.outerW exAttNetC1.outerB x i c l = 0 := by
  simp [conv1, exAttNetC1]

theorem c6res2_val (i c l : ℕ) : c6res2 i c l = c6H1 i c l := by
  simp [c6res2, c6outer_zero]

theorem c6res2_zero (c : ℕ) (hc : c ≠ 0) (i l : ℕ) : c6res2 i c l = 0 := by
  rw [c6res2_val]
  exact c6H1_zero c hc i l

theorem c6H2_zero (c : ℕ) (hc : c ≠ 0) (i l : ℕ) : c6H2 i c l = 0 :=
  bnTrain_zero_channel Real.sqrt 2 2 exAttNetC1.ffBn c6res2 c
    (c6res2_zero c hc) rfl i l

theorem c6conv_mean : bnMean 2 2 c6conv 0 = 3 / 4 := by
  simp [bnMean, Finset.sum_range_succ, c6conv_val, exTripC6]
  norm_num

theorem c6conv_var : bnVar 2 2 c6conv 0 = 11 / 16 := by
  simp [bnVar, Finset.sum_range_succ, c6conv_val, c6conv_mean, exTripC6]
  norm_num

theorem c6EI_val (i l : ℕ) :
    c6EI i 0 l = (exTripC6 i l 0 - 3 / 4) / Real.sqrt (11 / 16 + bnEps) := by
  have hg : exAttNetC1.embBn.gamma 0 = 1 := rfl
  have hb : exAttNetC1.embBn.beta 0 = 0 := rfl
  simp [c6EI, bnTrain, c6conv_mean, c6conv_var, c6conv_val, hg, hb]

theorem c6EI_sum :
    ∑ i ∈ range 2, ∑ l ∈ range 2, c6EI i 0 l = 0 := by
  simp [Finset.sum_range_succ, c6EI_val, exTripC6]
  ring

theorem c6EI_mean : bnMean 2 2 c6EI 0 = 0 := by
  rw [bnMean, c6EI_sum, zero_div]

theorem c6H1_val (i l : ℕ) :
    c6H1 i 0 l = c6EI i 0 l / Real.sqrt (bnVar 2 2 c6EI 0 + bnEps) := by
  have hg : exAttNetC1.mhaBn.gamma 0 = 1 := rfl
  have hb : exAttNetC1.mhaBn.beta 0 = 0 := rfl
  simp [c6H1, bnTrain, c6EI_mean, hg, hb]

theorem c6H1_sum :
    ∑ i ∈ range 2, ∑ l ∈ range 2, c6H1 i 0 l = 0 := by
  simp only [Finset.sum_range_succ, Finset.sum_range_zero, zero_add,
    c6H1_val, div_add_div_same]
  have h := c6EI_sum
  simp only [Finset.sum_range_succ, Finset.sum_range_zero, zero_add] at h
  rw [h, zero_div]

theorem c6res2_mean : bnMean 2 2 c6res2 0 = 0 := by
  have hsum : ∑ i ∈ range 2, ∑ l ∈ range 2, c6res2 i 0 l = 0 := by
    simp only [c6res2_val]
    exact c6H1_sum
  rw [bnMean, hsum, zero_div]

theorem c6H2_val (i l : ℕ) :
    c6H2 i 0 l = c6res2 i 0 l / Real.sqrt (bnVar 2 2 c6res2 0 + bnEps) := by
  have hg : exAttNetC1.ffBn.gamma 0 = 1 := rfl
  have hb : exAttNetC1.ffBn.beta 0 = 0 := rfl
  simp [c6H2, bnTrain, c6res2_mean, hg, hb]

theorem c6pool_zero : ∑ l ∈ range 2, c6H2 0 0 l = -(1 / 2) / c6D := by
  simp only [Finset.sum_range_succ, Finset.sum_range_zero, zero_add,
    c6H2_val, c6res2_val, c6H1_val, c6EI_val, exTripC6, c6D]
  norm_num
  ring

theorem c6D_pos : 0 < c6D := by
  have h1 : (0 : ℝ) < 11 / 16 + bnEps := by norm_num [bnEps]
  have h2 : (0 : ℝ) < bnVar 2 2 c6EI 0 + bnEps :=
    add_pos_of_nonneg_of_pos (bnVar_nonneg 2 2 c6EI 0) (by norm_num [bnEps])
  have h3 : (0 : ℝ) < bnVar 2 2 c6res2 0 + bnEps :=
    add_pos_of_nonneg_of_pos (bnVar_nonneg 2 2 c6res2 0)
      (by norm_num [bnEps])
  exact mul_pos (Real.sqrt_pos.mpr h1)
    (mul_pos (Real.sqrt_pos.mpr h2) (Real.sqrt_pos.mpr h3))

/-- Pooled encoding of the batched C6 input at row 0: channel 0 carries the
strictly negative value -(1/2)/c6D, all other channels are zero. -/
theorem c6pooled (c : ℕ) :
    attnetForward Real.exp Real.sqrt 2 2 1 8 8 64 exPolicyC6.attn exTripC6
      0 c = if c = 0 then -(1 / 2) / c6D else 0 := by
  have hunf : attnetForward Real.exp Real.sqrt 2 2 1 8 8 64
      exPolicyC6.attn exTripC6 0 c = ∑ l ∈ range 2, c6H2 0 c l := rfl
  rw [hunf]
  rcases eq_or_ne c 0 with h | h
  · rw [h, if_pos rfl]
    exact c6pool_zero
  · rw [if_neg h]
    simp [c6H2_zero c h]

theorem exp_frac_ne_half (h : ℝ) (hh : 0 < h) :
    Real.exp (max h 0) / (Real.exp (max h 0) + 1) ≠ 1 / 2 := by
  rw [max_eq_left hh.le]
  have h1 : 1 < Real.exp h := by
    rw [← Real.exp_zero]
    exact Real.exp_lt_exp.mpr hh
  have h2 : (0 : ℝ) < Real.exp h + 1 := by positivity
  intro heq
  rw [div_eq_iff (ne_of_gt h2)] at heq
  linarith

/-- Claim C6 counterexample: predict is not a per-row homomorphism over
batching.  On the single row (0, 1) alone, the batch statistics of the
normalizations are formed from that row only and the pooled vector is
identically zero, giving probabilities (1/2, 1/2); stacked with the
distinct row (0, 2), the shared batch statistics shift, row 0 pools to a
nonzero value, and its probability vector changes: cross-batch leakage
through the training-mode batch norms. -/
theorem C6_counterexample_batch_leakage :
    policyForward Real.exp Real.sqrt 2 2 1 8 8 64 1 1 3 exPolicyC6
        (fun _ _ => 0) exTripC6 0 0
      ≠ policyForward Real.exp Real.sqrt 1 2 1 8 8 64 1 1 3 exPolicyC6
          (fun _ _ => 0) exTripC6s 0 0 := by
  have hpool1 : ∀ c, attnetForward Real.exp Real.sqrt 1 2 1 8 8 64
      exPolicyC6.attn exTripC6s 0 c = 0 :=
    fun c => attnet_single_row Real.exp Real.sqrt 1 8 8 64 exPolicyC6.attn
      (fun c2 => rfl) exTripC6s c
  have hsingle : policyForward Real.exp Real.sqrt 1 2 1 8 8 64 1 1 3
      exPolicyC6 (fun _ _ => 0) exTripC6s 0 0 = 1 / 2 := by
    simp only [policyForward, hpool1]
    norm_num [exPolicyC6, Finset.sum_range_succ, Real.exp_zero]
  rw [hsingle]
  simp only [policyForward, c6pooled]
  norm_num [exPolicyC6, Finset.sum_range_succ, Finset.sum_range_one]
  have hq : (0 : ℝ) < -(-(1 / 2) / c6D) := by
    have hd := c6D_pos
    have hrw : -(-(1 / 2) / c6D) = (1 / 2) / c6D := by ring
    rw [hrw]
    exact div_pos (by norm_num) hd
  exact exp_frac_ne_half (-(-(1 / 2) / c6D)) hq

/-- One Adam step on a single scalar parameter with step count t, as
`torch.optim.Adam` performs it: first and second moment updates, bias
correction, and the parameter move `x - lr * mhat / (sqrt vhat + eps)`.
Returns the new parameter and the new moment estimates. -/
noncomputable def adamStep (lr b1 b2 eps : ℝ) (t : ℕ) (x m v g : ℝ) :
    ℝ × ℝ × ℝ :=
  let m1 := b1 * m + (1 - b1) * g
  let v1 := b2 * v + (1 - b2) * g ^ 2
  let mhat := m1 / (1 - b1 ^ t)
  let vhat := v1 / (1 - b2 ^ t)
  (x - lr * mhat / (Real.sqrt vhat + eps), m1, v1)

/-- Claim C5 (amended): an update call with all advantages zero returns loss
0, and the optimizer step leaves the parameter unchanged provided the Adam
moment estimates are zero (as on the first update of a fresh estimator); the
gradient of the identically-zero loss is zero, which the step receives. -/
theorem C5_zero_advantage_neutrality (B A : ℕ) (logp : ℕ → ℕ → ℚ)
    (actions : ℕ → ℤ) (adv : ℕ → ℚ) (hadv : ∀ i, adv i = 0) :
    updateLossVal B A logp actions adv = 0 ∧
    ∀ (lr b1 b2 eps : ℝ) (t : ℕ) (x : ℝ),
      (adamStep lr b1 b2 eps t x 0 0 0).1 = x := by
  constructor
  · unfold updateLossVal
    simp [hadv]
  · intro lr b1 b2 eps t x
    simp [adamStep]

theorem C5_zero_advantage_neutrality_witness :
    updateLossVal 2 3 exLogp exActions3 (fun _ => 0) = 0 ∧
    (adamStep (1 / 10) (9 / 10) (999 / 1000) (1 / 100000000) 1 5 0 0 0).1
      = 5 :=
  ⟨(C5_zero_advantage_neutrality 2 3 exLogp exActions3 (fun _ => 0)
      (fun _ => rfl)).1,
   (C5_zero_advantage_neutrality 2 3 exLogp exActions3 (fun _ => 0)
      (fun _ => rfl)).2 (1 / 10) (9 / 10) (999 / 1000) (1 / 100000000) 1 5⟩

/-- Claim C5 counterexample: the claim asserts parameter neutrality with no
precondition on the optimizer moment state, but an Adam step at zero gradient
with nonzero first moment (here m = 1, v = 1 from earlier updates) moves the
parameter: with lr = 1/10 the parameter 0 does not stay 0. -/
theorem C5_counterexample_adam_moves_params :
    (adamStep (1 / 10) (9 / 10) (999 / 1000) (1 / 100000000) 1 0 1 1 0).1
      ≠ 0 := by
  simp only [adamStep]
  intro h
  norm_num at h
  have hs : (0 : ℝ) ≤ Real.sqrt 999 := Real.sqrt_nonneg _
  linarith

end CORL
